import Mathlib

/-!
# Verification of the miniGU in-memory DiskANN vector-index adapter

A shallow embedding of `src/minigu/storage/src/tp/vector_index/in_mem_diskann.rs`
and the argument validation of `src/minigu/core/src/procedures/vector_search.rs`.

Modelling conventions:
* `u64` node ids and `u32` slot ids become `Nat`, with wrap-around made explicit
  as `% 2^32` exactly where the Rust code performs `as u32` casts or wrapping
  atomic arithmetic.
* The two `DashMap`s become association lists with overwrite-on-insert
  semantics (`minsert` removes any previous binding of the key first, so the
  key set stays duplicate-free, as in a real map).
* `f32`/`f64` values (vector components, selectivity, the value of
  `-selectivity.ln()`, stats accumulators) are modelled as rationals.  The
  floating-point logarithm is not re-implemented: the `FilterMask` model
  carries the value `-ln(selectivity)` produced by the float kernel as an
  oracle field `negLnSel`, and theorems about the expansion factor quantify
  over it.
* The out-of-scope inner DiskANN library is modelled by oracle parameters:
  a success/error outcome for `build_from_memory` / `insert_from_memory` /
  `soft_delete`, and an `InnerSearchModel` (stored-vector accessor plus
  search outcome) for the search paths.
* Rust panics (`expect` on a poisoned lock, the `unreachable!()` dimension
  arm) are a distinguished result `SRes.panicked`.
-/

namespace MiniGU

/-- The error kinds of `VectorIndexError` that the adapter can surface. -/
inductive VErr where
  | emptyDataset : VErr
  | indexNotBuilt : VErr
  | vertexIdOverflow (vertex_id : Nat) : VErr
  | duplicateNodeId (node_id : Nat) : VErr
  | nodeIdNotFound (node_id : Nat) : VErr
  | vectorIdNotFound (vector_id : Nat) : VErr
  | invalidDimension (expected actual : Nat) : VErr
  | buildError (msg : String) : VErr
  | searchError (msg : String) : VErr
  | diskANN (msg : String) : VErr
  | notSupported (msg : String) : VErr
  deriving DecidableEq, Repr

/-- Outcome of an adapter operation: `Ok`, `Err`, or a Rust panic. -/
inductive SRes (α : Type) where
  | ok (a : α) : SRes α
  | err (e : VErr) : SRes α
  | panicked : SRes α
  deriving DecidableEq, Repr

/-- The constant 2^32, the slot-id modulus (`u32`). -/
def U32 : Nat := 4294967296

/-- The constant `u32::MAX`, the largest node id the adapter accepts. -/
def u32max : Nat := 4294967295

/-! ## Association-list maps (the two `DashMap`s) -/

/-- A `DashMap<Nat, Nat>` modelled as an association list with unique keys. -/
abbrev NMap := List (Nat × Nat)

/-- Lookup, `map.get(&k)`: the value bound to `k`, if any. -/
def mlookup (m : NMap) (k : Nat) : Option Nat :=
  (m.find? (fun p => p.1 == k)).map (·.2)

/-- Removal, `map.remove(&k)`: drop every binding of `k`. -/
def mremove (m : NMap) (k : Nat) : NMap :=
  m.filter (fun p => p.1 != k)

/-- Insertion, `map.insert(k, v)`: bind `k` to `v`, overwriting any previous binding. -/
def minsert (m : NMap) (k v : Nat) : NMap :=
  (k, v) :: mremove m k

/-! ## Statistics (`IndexStats`) -/

/-- Statistics, `IndexStats`: counters and the expansion-factor distribution.  `f64`
accumulators are modelled as rationals; `min_expansion_factor` is
sentinel-initialized to `usize::MAX`. -/
structure IndexStats where
  vector_count : Nat
  memory_usage : Nat
  build_time_ms : Option Nat
  avg_search_time_us : Option Rat
  search_count : Nat
  brute_force_searches : Nat
  post_filter_searches : Nat
  pre_filter_searches : Nat
  total_brute_force_candidates : Nat
  expansion_factor_sum : Rat
  expansion_factor_count : Nat
  avg_expansion_factor : Rat
  max_expansion_factor : Nat
  min_expansion_factor : Nat
  deriving DecidableEq, Repr

/-- The constant `usize::MAX`, the sentinel for `min_expansion_factor`. -/
def usizeMax : Nat := 18446744073709551615

/-- Constructor `IndexStats::new()`. -/
def IndexStats.new : IndexStats where
  vector_count := 0
  memory_usage := 0
  build_time_ms := none
  avg_search_time_us := none
  search_count := 0
  brute_force_searches := 0
  post_filter_searches := 0
  pre_filter_searches := 0
  total_brute_force_candidates := 0
  expansion_factor_sum := 0
  expansion_factor_count := 0
  avg_expansion_factor := 0
  max_expansion_factor := 0
  min_expansion_factor := usizeMax

/-- Update `IndexStats::update_expansion_factor`. -/
def IndexStats.updateExpansionFactor (s : IndexStats) (factor : Nat) : IndexStats :=
  let sum := s.expansion_factor_sum + (factor : Rat)
  let count := s.expansion_factor_count + 1
  { s with
    expansion_factor_sum := sum
    expansion_factor_count := count
    avg_expansion_factor := sum / (count : Rat)
    max_expansion_factor := max s.max_expansion_factor factor
    min_expansion_factor :=
      if s.min_expansion_factor = usizeMax then factor
      else min s.min_expansion_factor factor }

/-- Update `IndexStats::update_after_build`. -/
def IndexStats.updateAfterBuild (s : IndexStats)
    (vector_count build_time_ms memory_usage : Nat) : IndexStats :=
  { s with
    vector_count := vector_count
    build_time_ms := some build_time_ms
    memory_usage := memory_usage }

/-! ## Adapter state -/

/-- The mutable state of `InMemDiskANNAdapter`: the two id maps, the atomic
slot counter, the stats, and whether the stats `RwLock` is poisoned. -/
structure AdapterState where
  node_to_vector : NMap
  vector_to_node : NMap
  next_vector_id : Nat
  stats : IndexStats
  poisoned : Bool
  deriving DecidableEq, Repr

/-- A freshly constructed adapter (`InMemDiskANNAdapter::new`). -/
def initState : AdapterState where
  node_to_vector := []
  vector_to_node := []
  next_vector_id := 0
  stats := IndexStats.new
  poisoned := false

/-- Accessor `size()`: the number of live vectors, `node_to_vector.len()`. -/
def AdapterState.size (s : AdapterState) : Nat := s.node_to_vector.length

/-- Reset `clear_mappings` (caller must have checked the lock is not poisoned). -/
def clearMappings (s : AdapterState) : AdapterState :=
  { s with
    node_to_vector := []
    vector_to_node := []
    next_vector_id := 0
    stats := IndexStats.new }

/-! ## Expansion factor (post-filter search, lines 213-218) -/

/-- The expansion factor exactly as the code computes it:
`log_factor = 2.0 * (-selectivity.ln()).max(1.0)` followed by
`(log_factor.ceil() as usize).clamp(2, 50)`.  The argument is the value of
`-selectivity.ln()`. -/
def expansionFactor (negLn : Rat) : Nat :=
  min (max (Int.toNat ⌈2 * max negLn 1⌉) 2) 50

/-- Modelled from the spec: the spec's expansion-factor formula
`clamp(ceil(max(1, 2·(−ln s))), 2, 50)`, to be compared with the code's
`expansionFactor`. -/
def expansionFactorSpec (negLn : Rat) : Nat :=
  min (max (Int.toNat ⌈max 1 (2 * negLn)⌉) 2) 50

/-- The value `expanded_k = min(k * expansion_factor, total_nodes)`: the `k` that
`post_filter_search` passes to `ann_search`. -/
def postFilterExpandedK (k total : Nat) (negLn : Rat) : Nat :=
  min (k * expansionFactor negLn) total

/-! ## Inner index and filter mask oracles -/

/-- The out-of-scope inner DiskANN library as seen by the search paths:
`get_aligned_vector_data` (`none` models an inner error) and `search`
(the slots written into the output buffer, or an inner error message). -/
structure InnerSearchModel where
  getVec : Nat → Option (List Rat)
  srch : List Rat → Nat → Nat → Except String (List Nat)

/-- The `FilterMask` consumed by the adapter.  `negLnSel` is the value of
`-selectivity.ln()` as computed by the float kernel (an oracle, since the
floating-point logarithm is not re-implemented here). -/
structure MaskModel where
  selectivity : Rat
  candidateCount : Nat
  candidates : List Nat
  containsVector : Nat → Bool
  negLnSel : Rat

/-! ## L2 distance (`compute_l2_distance`, lines 252-293) -/

/-- Squared L2 distance of two equal-length vectors. -/
def l2sq (q v : List Rat) : Rat :=
  (List.zipWith (fun a b => (a - b) * (a - b)) q v).sum

/-- Distance kernel `compute_l2_distance`: rejects a length mismatch with
`InvalidDimension { expected: stored.len(), actual: query.len() }`; on a
dimension outside {104, 128, 256} the code hits `unreachable!()` (a panic);
otherwise it returns the squared L2 distance of the SIMD kernel. -/
def computeL2 (query stored : List Rat) : SRes Rat :=
  if query.length ≠ stored.length then
    .err (.invalidDimension stored.length query.length)
  else if query.length = 104 ∨ query.length = 128 ∨ query.length = 256 then
    .ok (l2sq query stored)
  else .panicked

/-- The distance the brute-force scan computes for one candidate slot:
fetch the stored vector, then `computeL2`. -/
def distOf (inner : InnerSearchModel) (query : List Rat) (slot : Nat) : SRes Rat :=
  match inner.getVec slot with
  | none => .err (.diskANN "get_aligned_vector_data failed")
  | some v => computeL2 query v

/-! ## Brute-force search (`brute_force_search`, lines 148-199)

The `BinaryHeap<(OrderedFloat<f32>, u32)>` is modelled as a list kept sorted
in descending lexicographic order, so its head is the heap's maximum. -/

/-- Strict lexicographic order on (distance, slot) pairs — the derived `Ord`
of the heap's element type. -/
def pairLtB (a b : Rat × Nat) : Bool :=
  decide (a.1 < b.1) || (decide (a.1 = b.1) && decide (a.2 < b.2))

/-- Pair `a` is lexicographically no smaller than pair `b`. -/
def pGe (a b : Rat × Nat) : Prop := pairLtB a b = false

/-- Insert into the descending-sorted list representing the heap. -/
def heapPush (x : Rat × Nat) : List (Rat × Nat) → List (Rat × Nat)
  | [] => [x]
  | y :: ys => if pairLtB y x then x :: y :: ys else y :: heapPush x ys

/-- One iteration of the candidate loop: push while the heap holds fewer
than `k` elements, else replace the maximum iff the new distance is
strictly smaller (the code compares distances only, lines 175-182). -/
def heapStep (k : Nat) (x : Rat × Nat) (h : List (Rat × Nat)) : List (Rat × Nat) :=
  if h.length < k then heapPush x h
  else
    match h with
    | [] => []
    | m :: rest => if x.1 < m.1 then heapPush x rest else m :: rest

/-- The candidate scan: walk `iter_candidates()`, computing each distance and
updating the heap, counting `valid_candidates`.  The first inner error or
dimension mismatch aborts the whole search. -/
def bfScan (inner : InnerSearchModel) (query : List Rat) (k : Nat) :
    List Nat → List (Rat × Nat) → Nat → SRes (List (Rat × Nat) × Nat)
  | [], h, c => .ok (h, c)
  | slot :: rest, h, c =>
    match distOf inner query slot with
    | .err e => .err e
    | .panicked => .panicked
    | .ok d => bfScan inner query k rest (heapStep k (d, slot) h) (c + 1)

/-- Search path `brute_force_search`.  `k == 0` returns empty immediately.  On success the
heap is drained in ascending order, slots are mapped to node ids (slots
missing from `vector_to_node` are dropped), and the stats counters are bumped
unless the lock is poisoned. -/
def bruteForce (st : AdapterState) (inner : InnerSearchModel) (query : List Rat)
    (k : Nat) (mask : MaskModel) : SRes (List Nat) × AdapterState :=
  if k = 0 then (.ok [], st)
  else
    match bfScan inner query k mask.candidates [] 0 with
    | .err e => (.err e, st)
    | .panicked => (.panicked, st)
    | .ok (heap, valid) =>
      let pairs := heap.reverse
      let nodeIds := pairs.filterMap (fun p => mlookup st.vector_to_node p.2)
      let st' :=
        if st.poisoned then st
        else { st with stats :=
          { st.stats with
            brute_force_searches := st.stats.brute_force_searches + 1
            total_brute_force_candidates :=
              st.stats.total_brute_force_candidates + valid } }
      (.ok nodeIds, st')

/-! ## Plain ANN search (`ann_search`, lines 364-407) -/

/-- Map returned slots to node ids; a slot missing from `vector_to_node` is an
invariant violation surfaced as `VectorIdNotFound`. -/
def mapSlots (m : NMap) : List Nat → SRes (List Nat)
  | [] => .ok []
  | s :: rest =>
    match mlookup m s with
    | none => .err (.vectorIdNotFound s)
    | some n =>
      match mapSlots m rest with
      | .ok ns => .ok (n :: ns)
      | .err e => .err e
      | .panicked => .panicked

/-- Search path `ann_search`.  Note that the final `search_count` update uses
`.expect(...)` in the code, so a poisoned stats lock panics here. -/
def annSearch (st : AdapterState) (inner : InnerSearchModel) (query : List Rat)
    (k : Nat) (l_value : Nat) : SRes (List Nat) × AdapterState :=
  if st.vector_to_node = [] then (.err .indexNotBuilt, st)
  else
    let ek := min k st.size
    if ek = 0 then (.ok [], st)
    else
      match inner.srch query ek l_value with
      | .error msg => (.err (.searchError msg), st)
      | .ok slots =>
        match mapSlots st.vector_to_node (slots.take ek) with
        | .err e => (.err e, st)
        | .panicked => (.panicked, st)
        | .ok nodeIds =>
          if st.poisoned then (.panicked, st)
          else
            (.ok nodeIds,
              { st with stats :=
                { st.stats with search_count := st.stats.search_count + 1 } })

/-! ## Post-filter search (`post_filter_search`, lines 203-247) -/

/-- Search path `post_filter_search`: expand `k`, run `ann_search`, filter the survivors
through the mask, take the first `k`, and record the stats unless the lock is
poisoned. -/
def postFilter (st : AdapterState) (inner : InnerSearchModel) (query : List Rat)
    (k : Nat) (l_value : Nat) (mask : MaskModel) : SRes (List Nat) × AdapterState :=
  let ef := expansionFactor mask.negLnSel
  let ek := postFilterExpandedK k st.size mask.negLnSel
  if ek = 0 then (.ok [], st)
  else
    match annSearch st inner query ek l_value with
    | (.ok allResults, st1) =>
      let filtered :=
        (allResults.filter (fun nid =>
          match mlookup st.node_to_vector nid with
          | some v => mask.containsVector v
          | none => false)).take k
      let st2 :=
        if st1.poisoned then st1
        else { st1 with stats :=
          (st1.stats.updateExpansionFactor ef) |>
            (fun s => { s with post_filter_searches := s.post_filter_searches + 1 }) }
      (.ok filtered, st2)
    | (.err e, st1) => (.err e, st1)
    | (.panicked, st1) => (.panicked, st1)

/-! ## Strategy dispatch (`search`, lines 409-440) -/

/-- Dispatcher `search`: no mask delegates to `ann_search`; otherwise require a built
index, short-circuit an empty candidate set, and pick brute force below the
0.1 selectivity threshold, post-filter at or above it. -/
def searchA (st : AdapterState) (inner : InnerSearchModel) (query : List Rat)
    (k : Nat) (l_value : Nat) : Option MaskModel → SRes (List Nat) × AdapterState
  | none => annSearch st inner query k l_value
  | some mask =>
    if st.vector_to_node = [] then (.err .indexNotBuilt, st)
    else if mask.candidateCount = 0 then (.ok [], st)
    else if mask.selectivity < 1 / 10 then bruteForce st inner query k mask
    else postFilter st inner query k l_value mask

/-! ## Build (`build`, lines 297-362) -/

/-- Stable insertion of one element into a list sorted by node id
(`sort_by_key` places equal keys in input order; insertion after equals
preserves stability for this insertion sort). -/
def sortInsert (a : Nat × List Rat) : List (Nat × List Rat) → List (Nat × List Rat)
  | [] => [a]
  | b :: bs => if a.1 < b.1 then a :: b :: bs else b :: sortInsert a bs

/-- Sorting, `sorted_vectors.sort_by_key(|(node_id, _)| *node_id)`. -/
def sortByKey : List (Nat × List Rat) → List (Nat × List Rat)
  | [] => []
  | a :: as => sortInsert a (sortByKey as)

/-- The validation-and-mapping loop of `build` (lines 313-339): walk the
sorted input, rejecting node ids above `u32::MAX` and duplicates, and
recording `node_id ↦ array_index as u32` in both directions. -/
def buildLoop : List (Nat × List Rat) → Nat → List Nat → NMap → NMap →
    Except VErr (NMap × NMap)
  | [], _, _, nm, vm => .ok (nm, vm)
  | (nodeId, _) :: rest, idx, seen, nm, vm =>
    if nodeId > u32max then .error (.vertexIdOverflow nodeId)
    else if nodeId ∈ seen then .error (.duplicateNodeId nodeId)
    else
      buildLoop rest (idx + 1) (nodeId :: seen)
        (minsert nm nodeId (idx % U32)) (minsert vm (idx % U32) nodeId)

/-- Operation `build`.  `innerErr` is the outcome of the inner `build_from_memory`
(`none` = success), `buildTime` the wall-clock milliseconds the code measures.
`clear_mappings` uses `.expect(...)` on the stats lock, so a poisoned lock
panics. -/
def buildOp (s : AdapterState) (batch : List (Nat × List Rat))
    (innerErr : Option String) (buildTime : Nat) : AdapterState × SRes Unit :=
  if batch = [] then (s, .err .emptyDataset)
  else if s.poisoned then (s, .panicked)
  else
    let s1 := clearMappings s
    let sorted := sortByKey batch
    match buildLoop sorted 0 [] [] [] with
    | .error e => (clearMappings s1, .err e)
    | .ok (nm, vm) =>
      match innerErr with
      | some msg => (clearMappings s1, .err (.buildError msg))
      | none =>
        ({ s1 with
            node_to_vector := nm
            vector_to_node := vm
            next_vector_id := sorted.length % U32
            stats := IndexStats.new.updateAfterBuild sorted.length buildTime 0 },
          .ok ())

/-! ## Insert (`insert`, lines 456-521) -/

/-- The validation loop of `insert` (lines 466-481): the first node id above
`u32::MAX` or already present in `node_to_vector` produces the error.
Duplicates *within* the batch are not checked. -/
def validateInsert (nm : NMap) : List (Nat × List Rat) → Option VErr
  | [] => none
  | (nodeId, _) :: rest =>
    if nodeId > u32max then some (.vertexIdOverflow nodeId)
    else if (mlookup nm nodeId).isSome then some (.duplicateNodeId nodeId)
    else validateInsert nm rest

/-- The `(node_id, vector_id)` pairs written by `insert` starting at array
index `i`, with the wrapping `base_vector_id + array_index as u32` slot
computation. -/
def insertedMappings (base : Nat) : List (Nat × List Rat) → Nat → List (Nat × Nat)
  | [], _ => []
  | (nodeId, _) :: rest, i =>
    (nodeId, (base + i % U32) % U32) :: insertedMappings base rest (i + 1)

/-- Write both directions of a list of mappings. -/
def writeMappings (nm vm : NMap) : List (Nat × Nat) → NMap × NMap
  | [] => (nm, vm)
  | (n, v) :: rest => writeMappings (minsert nm n v) (minsert vm v n) rest

/-- Roll back both directions of a list of mappings (lines 508-511). -/
def removeMappings (nm vm : NMap) : List (Nat × Nat) → NMap × NMap
  | [] => (nm, vm)
  | (n, v) :: rest => removeMappings (mremove nm n) (mremove vm v) rest

/-- Operation `insert`.  Empty input is a no-op success; an unbuilt index fails; after
validation the slot block is reserved with a wrapping `fetch_add`, the
mappings are written, and the inner `insert_from_memory` is called.  On inner
failure the mappings are removed again and the counter rewound with a
wrapping `fetch_sub`. -/
def insertOp (s : AdapterState) (batch : List (Nat × List Rat))
    (innerErr : Option String) : AdapterState × SRes Unit :=
  if batch = [] then (s, .ok ())
  else if s.node_to_vector = [] then (s, .err .indexNotBuilt)
  else
    match validateInsert s.node_to_vector batch with
    | some e => (s, .err e)
    | none =>
      let n := batch.length
      let base := s.next_vector_id
      let nextAdded := (base + n % U32) % U32
      let inserted := insertedMappings base batch 0
      let wm := writeMappings s.node_to_vector s.vector_to_node inserted
      match innerErr with
      | none =>
        ({ s with
            node_to_vector := wm.1
            vector_to_node := wm.2
            next_vector_id := nextAdded }, .ok ())
      | some msg =>
        let rm := removeMappings wm.1 wm.2 inserted
        ({ s with
            node_to_vector := rm.1
            vector_to_node := rm.2
            next_vector_id := (nextAdded + (U32 - n % U32)) % U32 },
          .err (.buildError msg))

/-! ## Soft delete (`soft_delete`, lines 523-573) -/

/-- The validation loop of `soft_delete` (lines 533-550): every node id must
be present in `node_to_vector` and its slot present in `vector_to_node`. -/
def collectDeleteSlots (nm vm : NMap) : List Nat → Except VErr (List Nat)
  | [] => .ok []
  | nodeId :: rest =>
    match mlookup nm nodeId with
    | none => .error (.nodeIdNotFound nodeId)
    | some v =>
      if (mlookup vm v).isSome then
        match collectDeleteSlots nm vm rest with
        | .ok vs => .ok (v :: vs)
        | .error e => .error e
      else .error (.nodeIdNotFound nodeId)

/-- The removal loop run after a successful inner `soft_delete`
(lines 558-564). -/
def removeDeleted (nm vm : NMap) : List Nat → NMap × NMap
  | [] => (nm, vm)
  | nodeId :: rest =>
    match mlookup nm nodeId with
    | some v => removeDeleted (mremove nm nodeId) (mremove vm v) rest
    | none => removeDeleted nm vm rest

/-- Operation `soft_delete`.  Validation happens before any mutation; on inner failure
the maps are left unchanged. -/
def softDeleteOp (s : AdapterState) (nodeIds : List Nat)
    (innerErr : Option String) : AdapterState × SRes Unit :=
  if nodeIds = [] then (s, .ok ())
  else if s.node_to_vector = [] then (s, .err .indexNotBuilt)
  else
    match collectDeleteSlots s.node_to_vector s.vector_to_node nodeIds with
    | .error e => (s, .err e)
    | .ok _ =>
      match innerErr with
      | some msg => (s, .err (.diskANN msg))
      | none =>
        let rd := removeDeleted s.node_to_vector s.vector_to_node nodeIds
        ({ s with node_to_vector := rd.1, vector_to_node := rd.2 }, .ok ())

/-! ## Operation sequences (for the IdMap invariant) -/

/-- One mutating adapter call, together with the inner library's outcome for
it (and the measured build time for `build`). -/
inductive Op where
  | build (batch : List (Nat × List Rat)) (innerErr : Option String) (buildTime : Nat) : Op
  | insert (batch : List (Nat × List Rat)) (innerErr : Option String) : Op
  | softDelete (nodeIds : List Nat) (innerErr : Option String) : Op

/-- Apply one operation. -/
def applyOp (s : AdapterState) : Op → AdapterState × SRes Unit
  | .build batch innerErr t => buildOp s batch innerErr t
  | .insert batch innerErr => insertOp s batch innerErr
  | .softDelete ids innerErr => softDeleteOp s ids innerErr

/-- Side conditions under which an operation keeps the slot space healthy:
insert batches are free of intra-batch duplicate node ids, and the slot
counter does not wrap around 2^32 (the spec leaves slot exhaustion
undefined). -/
def goodOp (s : AdapterState) : Op → Prop
  | .build batch _ _ => batch.length < U32
  | .insert batch _ =>
      (batch.map Prod.fst).Nodup ∧ s.next_vector_id + batch.length < U32
  | .softDelete _ _ => True

/-- States reachable from a fresh adapter by successful operations whose
insert batches are duplicate-free and which do not exhaust the slot space. -/
inductive GoodReach : AdapterState → Prop where
  | init : GoodReach initState
  | step {s s' : AdapterState} {op : Op} :
      GoodReach s → goodOp s op → applyOp s op = (s', .ok ()) → GoodReach s'

/-- Two maps are inverse bijections over their entries: the first maps `n` to
`v` iff the second maps `v` to `n`. -/
def pairBij (nm vm : NMap) : Prop :=
  ∀ n v, mlookup nm n = some v ↔ mlookup vm v = some n

/-- The bijection invariant of the IdMap: `node_to_vector` maps `n` to `v`
iff `vector_to_node` maps `v` to `n`. -/
def Bij (s : AdapterState) : Prop :=
  pairBij s.node_to_vector s.vector_to_node

/-- Every slot recorded in `vector_to_node` is below the slot counter. -/
def SlotsBelowNext (s : AdapterState) : Prop :=
  ∀ v n, mlookup s.vector_to_node v = some n → v < s.next_vector_id

/-! ## VectorSearch procedure argument validation
(`vector_search.rs`, lines 50-56) -/

/-- The argument validation performed by the `VectorSearch` procedure before
any search: only `k == 0` and `l_value == 0` are rejected.  The query vector
is received but not validated here. -/
def vsValidate (k l_value : Nat) (_query_vector : List Rat) : Except String Unit :=
  if k = 0 then .error "k must be positive"
  else if l_value = 0 then .error "l_value must be positive"
  else .ok ()

/-! ## Shared concrete states for witnesses and counterexamples -/

/-- The adapter after a successful `build` of the single vector `(1, [1])`:
`node_to_vector = {1 ↦ 0}`, `vector_to_node = {0 ↦ 1}`, `next_vector_id = 1`. -/
def cexBuilt : AdapterState := (buildOp initState [(1, [1])] none 0).1

/-- State `cexBuilt` with the stats lock poisoned. -/
def poisonedBuilt : AdapterState := { cexBuilt with poisoned := true }

/-- An inner-index oracle whose every stored vector is the 104-dimensional
zero vector and whose `search` always returns slot 0. -/
def innerZero : InnerSearchModel :=
  ⟨fun _ => some (List.replicate 104 (0 : Rat)), fun _ _ _ => .ok [0]⟩

/-- An inner-index oracle that rejects every search (e.g. because of a query
dimension mismatch, which the inner library — not the adapter — detects). -/
def innerReject : InnerSearchModel :=
  ⟨fun _ => some (List.replicate 104 (0 : Rat)), fun _ _ _ => .error "dimension mismatch"⟩

/-- The 104-dimensional zero query. -/
def q104 : List Rat := List.replicate 104 0

/-- A mask with selectivity 0.05 (< 0.1) whose only candidate is slot 0. -/
def mask005 : MaskModel := ⟨1 / 20, 1, [0], fun _ => true, 3⟩

/-! ## Lemmas and claim theorems -/

theorem mlookup_nil (k : Nat) : mlookup [] k = none := rfl

theorem mlookup_cons (p : Nat × Nat) (m : NMap) (k : Nat) :
    mlookup (p :: m) k = if p.1 = k then some p.2 else mlookup m k := by
  by_cases h : p.1 = k
  · rw [if_pos h]
    unfold mlookup
    rw [List.find?_cons_of_pos _ (by simpa using h)]
    rfl
  · rw [if_neg h]
    unfold mlookup
    rw [List.find?_cons_of_neg _ (by simpa using h)]

theorem mremove_nil (k : Nat) : mremove [] k = [] := rfl

theorem mremove_cons (p : Nat × Nat) (m : NMap) (k : Nat) :
    mremove (p :: m) k = if p.1 = k then mremove m k else p :: mremove m k := by
  unfold mremove
  rw [List.filter_cons]
  by_cases h : p.1 = k <;> simp [h]

theorem mlookup_mremove (m : NMap) (k k' : Nat) :
    mlookup (mremove m k) k' = if k' = k then none else mlookup m k' := by
  induction m with
  | nil => simp [mremove_nil, mlookup_nil]
  | cons p m ih =>
    rw [mremove_cons]
    by_cases hpk : p.1 = k
    · rw [if_pos hpk, ih]
      by_cases hk : k' = k
      · simp [hk]
      · rw [if_neg hk, if_neg hk, mlookup_cons, if_neg (by omega)]
    · rw [if_neg hpk, mlookup_cons, mlookup_cons, ih]
      by_cases hpk' : p.1 = k'
      · rw [if_pos hpk', if_pos hpk', if_neg (by omega)]
      · rw [if_neg hpk', if_neg hpk']

theorem mlookup_minsert (m : NMap) (k v k' : Nat) :
    mlookup (minsert m k v) k' = if k' = k then some v else mlookup m k' := by
  unfold minsert
  rw [mlookup_cons]
  by_cases h : k' = k
  · rw [if_pos (by omega), if_pos h]
  · rw [if_neg (by omega), if_neg h, mlookup_mremove, if_neg h]

theorem mremove_eq_self (m : NMap) (k : Nat) (h : mlookup m k = none) :
    mremove m k = m := by
  induction m with
  | nil => rfl
  | cons p m ih =>
    rw [mlookup_cons] at h
    by_cases hpk : p.1 = k
    · simp [hpk] at h
    · rw [if_neg hpk] at h
      rw [mremove_cons, if_neg hpk, ih h]

/-! ## C8 — VectorSearch argument validation -/

/-- C8 counterexample: with `k = 5 > l_value = 3` and an empty query vector —
two of the conditions the claim says are rejected — validation succeeds.
The procedure checks only `k == 0` and `l_value == 0`. -/
theorem vsValidate_passes_k_gt_l_and_empty_query :
    vsValidate 5 3 [] = .ok () := rfl

/-- C8 (amended): VectorSearch's validation succeeds exactly when `k ≠ 0` and
`l_value ≠ 0`; neither `k ≤ l_value` nor non-emptiness of the query vector is
checked. -/
theorem vsValidate_ok_iff :
    ∀ (k l_value : Nat) (q : List Rat),
      vsValidate k l_value q = .ok () ↔ (k ≠ 0 ∧ l_value ≠ 0) := by
  intro k l q
  unfold vsValidate
  by_cases hk : k = 0
  · simp [hk]
  · by_cases hl : l = 0 <;> simp [hk, hl]

/-! ## C4 — post-filter expansion factor -/

/-- C4: the expansion factor the code computes (`clamp(ceil(2·max(−ln s, 1)),
2, 50)`) coincides with the spec's formula `clamp(ceil(max(1, 2·(−ln s))),
2, 50)`; it is monotone in `−ln s` (hence non-increasing in the selectivity
`s`, since `−ln` is antitone); `ann_search` is invoked with
`expanded_k = min(k · expansion, total_nodes)`; and whenever `−ln s ∈ (0, 1]`
— in particular at `s = 0.5`, where `−ln s ≈ 0.6931` — the factor is 2, so
`search(q, 3, 32, mask)` over at least 6 nodes requests the inner ANN with
`k = 6`. -/
theorem expansionFactor_spec :
    (∀ x : Rat, expansionFactor x = expansionFactorSpec x) ∧
    (∀ x y : Rat, x ≤ y → expansionFactor x ≤ expansionFactor y) ∧
    (∀ (k total : Nat) (x : Rat),
      postFilterExpandedK k total x = min (k * expansionFactorSpec x) total) ∧
    (∀ x : Rat, 0 < x → x ≤ 1 → expansionFactor x = 2) ∧
    (∀ (total : Nat) (x : Rat), 0 < x → x ≤ 1 → 6 ≤ total →
      postFilterExpandedK 3 total x = 6) := by
  have hface : ∀ x : Rat, x ≤ 1 → expansionFactor x = 2 := by
    intro x hx
    unfold expansionFactor
    rw [max_eq_right hx]
    norm_num
    rfl
  have heq : ∀ x : Rat, expansionFactor x = expansionFactorSpec x := by
    intro x
    rcases le_or_lt x 1 with hx | hx
    · rw [hface x hx]
      unfold expansionFactorSpec
      rcases le_or_lt (2 * x) 1 with h2x | h2x
      · rw [max_eq_left h2x]
        norm_num
      · rw [max_eq_right h2x.le]
        have hc1 : (1 : Int) ≤ ⌈(2 : Rat) * x⌉ := by
          have h := Int.ceil_le_ceil (α := Rat) h2x.le
          rwa [Int.ceil_one] at h
        have hc2 : ⌈(2 : Rat) * x⌉ ≤ 2 := by
          rw [Int.ceil_le]
          push_cast
          linarith
        omega
    · unfold expansionFactor expansionFactorSpec
      rw [max_eq_left hx.le, max_eq_right (by linarith : (1 : Rat) ≤ 2 * x)]
  refine ⟨heq, ?_, ?_, fun x h0 h1 => hface x h1, ?_⟩
  · intro x y hxy
    unfold expansionFactor
    have h1 : (2 : Rat) * max x 1 ≤ 2 * max y 1 := by
      have := max_le_max hxy (le_refl (1 : Rat))
      linarith
    have h2 := Int.ceil_le_ceil h1
    omega
  · intro k total x
    unfold postFilterExpandedK
    rw [heq x]
  · intro total x h0 h1 htot
    unfold postFilterExpandedK
    rw [hface x h1]
    omega

/-- C4 witness: at the (float-computed) value `−ln 0.5 ≈ 0.6931472` and a
10-vector index, `search` with `k = 3` expands to `expanded_k = 6`. -/
theorem expansionFactor_spec_witness :
    postFilterExpandedK 3 10 (6931472 / 10000000 : Rat) = 6 :=
  expansionFactor_spec.2.2.2.2 10 (6931472 / 10000000 : Rat)
    (by norm_num) (by norm_num) (by norm_num)

/-! ## Helper lemmas about insert validation and rollback -/

theorem mlookup_isSome_of_mem (nm : NMap) (p : Nat × Nat) (hp : p ∈ nm) :
    (mlookup nm p.1).isSome := by
  induction nm with
  | nil => simp at hp
  | cons q nm ih =>
    rw [mlookup_cons]
    by_cases hq : q.1 = p.1
    · simp [hq]
    · rcases List.mem_cons.mp hp with rfl | hmem
      · exact absurd rfl hq
      · simp only [hq, if_neg]
        exact ih hmem

theorem validateInsert_finds_dup (nm : NMap) :
    ∀ batch : List (Nat × List Rat),
      (∀ p ∈ batch, p.1 ≤ u32max) →
      (∃ p ∈ batch, (mlookup nm p.1).isSome) →
      ∃ n, (mlookup nm n).isSome ∧
        validateInsert nm batch = some (.duplicateNodeId n) := by
  intro batch
  induction batch with
  | nil => rintro _ ⟨p, hp, _⟩; simp at hp
  | cons q rest ih =>
    rintro hbound ⟨p, hp, hsome⟩
    have hq : ¬ q.1 > u32max := by
      have := hbound q (List.mem_cons_self q rest)
      omega
    by_cases hdup : (mlookup nm q.1).isSome
    · refine ⟨q.1, hdup, ?_⟩
      obtain ⟨nid, vec⟩ := q
      unfold validateInsert
      rw [if_neg hq, if_pos hdup]
    · rcases List.mem_cons.mp hp with rfl | hmem
      · exact absurd hsome hdup
      · obtain ⟨n, hn, hval⟩ :=
          ih (fun p hp => hbound p (List.mem_cons_of_mem q hp)) ⟨p, hmem, hsome⟩
        refine ⟨n, hn, ?_⟩
        obtain ⟨nid, vec⟩ := q
        unfold validateInsert
        rw [if_neg hq, if_neg (by simpa using hdup), hval]

theorem validateInsert_none (nm : NMap) :
    ∀ batch : List (Nat × List Rat),
      (∀ p ∈ batch, p.1 ≤ u32max ∧ mlookup nm p.1 = none) →
      validateInsert nm batch = none := by
  intro batch
  induction batch with
  | nil => intro _; rfl
  | cons q rest ih =>
    intro hb
    obtain ⟨h1, h2⟩ := hb q (List.mem_cons_self q rest)
    obtain ⟨nid, vec⟩ := q
    unfold validateInsert
    rw [if_neg (by simp at h1 ⊢; omega), if_neg (by simp [h2]),
      ih (fun p hp => hb p (List.mem_cons_of_mem _ hp))]

theorem insertedMappings_fst (base : Nat) :
    ∀ (batch : List (Nat × List Rat)) (i : Nat),
      (insertedMappings base batch i).map Prod.fst = batch.map Prod.fst := by
  intro batch
  induction batch with
  | nil => intro i; rfl
  | cons q rest ih =>
    intro i
    obtain ⟨nid, vec⟩ := q
    simp [insertedMappings, ih (i + 1)]

theorem removeMappings_fst :
    ∀ (ps : List (Nat × Nat)) (nm vm : NMap),
      (removeMappings nm vm ps).1 =
        nm.filter (fun p => !((ps.map Prod.fst).contains p.1)) := by
  intro ps
  induction ps with
  | nil =>
    intro nm vm
    rw [List.filter_eq_self.mpr]
    · rfl
    · intro a _
      simp
  | cons q ps ih =>
    intro nm vm
    obtain ⟨n, v⟩ := q
    show (removeMappings (mremove nm n) (mremove vm v) ps).1 = _
    rw [ih]
    unfold mremove
    rw [List.filter_filter]
    refine List.filter_congr ?_
    intro a _
    by_cases ha : a.1 = n
    · simp [ha]
    · simp [ha, List.contains_cons, show (a.1 == n) = false by simpa using ha]

theorem writeMappings_fst_filter (ks : List Nat) :
    ∀ (ps : List (Nat × Nat)) (nm vm : NMap),
      (∀ p ∈ ps, ks.contains p.1 = true) →
      (writeMappings nm vm ps).1.filter (fun p => !(ks.contains p.1)) =
        nm.filter (fun p => !(ks.contains p.1)) := by
  intro ps
  induction ps with
  | nil => intro nm vm _; rfl
  | cons q ps ih =>
    intro nm vm hks
    obtain ⟨n, v⟩ := q
    have hn : ks.contains n = true := hks (n, v) (List.mem_cons_self _ _)
    have hn' : n ∈ ks := by simpa using hn
    show (writeMappings (minsert nm n v) (minsert vm v n) ps).1.filter _ = _
    rw [ih _ _ (fun p hp => hks p (List.mem_cons_of_mem _ hp))]
    unfold minsert mremove
    rw [List.filter_cons, if_neg (by simpa using hn), List.filter_filter]
    refine List.filter_congr ?_
    intro a _
    by_cases ha : a.1 = n
    · simp [ha, hn']
    · simp [ha]

theorem filter_not_keys_eq_self (nm : NMap) (ks : List Nat)
    (h : ∀ k ∈ ks, mlookup nm k = none) :
    nm.filter (fun p => !(ks.contains p.1)) = nm := by
  rw [List.filter_eq_self]
  intro p hp
  by_cases hk : p.1 ∈ ks
  · have h1 := h p.1 hk
    have h2 := mlookup_isSome_of_mem nm p hp
    rw [h1] at h2
    simp at h2
  · simpa using hk

/-! ## C2 — duplicate rejection in insert -/

/-- C2 counterexample: on the index built from `{1}`, inserting the batch
`[(2, _), (2, _)]` — the same NodeId twice within one batch — does **not**
fail with `DuplicateNodeId`; it succeeds and establishes mappings for the
batch (validation only consults the pre-existing `node_to_vector`). -/
theorem insert_intra_batch_duplicate_not_rejected :
    (insertOp cexBuilt [(2, [2]), (2, [3])] none).2 = .ok () ∧
    mlookup (insertOp cexBuilt [(2, [2]), (2, [3])] none).1.node_to_vector 2 = some 2 ∧
    mlookup (insertOp cexBuilt [(2, [2]), (2, [3])] none).1.vector_to_node 1 = some 2 := by
  decide

/-- C2 (amended): `insert` on a built index fails with
`DuplicateNodeId{node_id}` — without establishing any mapping, since
validation precedes all writes — precisely when some node id of the batch is
*already present* in `node_to_vector` (and no earlier batch entry overflows).
Intra-batch duplicates among fresh node ids are not detected. -/
theorem insert_rejects_preexisting_duplicate :
    ∀ (s : AdapterState) (batch : List (Nat × List Rat)) (ierr : Option String),
      s.node_to_vector ≠ [] →
      (∀ p ∈ batch, p.1 ≤ u32max) →
      (∃ p ∈ batch, (mlookup s.node_to_vector p.1).isSome) →
      ∃ n, (mlookup s.node_to_vector n).isSome ∧
        insertOp s batch ierr = (s, .err (.duplicateNodeId n)) := by
  intro s batch ierr hbuilt hbound hex
  obtain ⟨n, hn, hval⟩ := validateInsert_finds_dup _ _ hbound hex
  refine ⟨n, hn, ?_⟩
  have hbne : batch ≠ [] := by
    rcases hex with ⟨p, hp, _⟩
    intro h
    rw [h] at hp
    simp at hp
  unfold insertOp
  rw [if_neg hbne, if_neg hbuilt, hval]

/-- C2 witness: on the index holding `{1, 2}`, inserting `[(2, _)]` is
rejected with `DuplicateNodeId` and the state is untouched. -/
theorem insert_rejects_preexisting_duplicate_witness :
    ∃ n, (mlookup ((insertOp cexBuilt [(2, [2])] none).1).node_to_vector n).isSome ∧
      insertOp ((insertOp cexBuilt [(2, [2])] none).1) [(2, [5])] none =
        ((insertOp cexBuilt [(2, [2])] none).1, .err (.duplicateNodeId n)) :=
  insert_rejects_preexisting_duplicate ((insertOp cexBuilt [(2, [2])] none).1)
    [(2, [5])] none (by decide) (by decide) ⟨(2, [5]), by decide, by decide⟩

/-! ## C3 — insert rollback on inner failure -/

/-- C3: if the inner `insert_from_memory` fails on a batch that passed
validation (built index, every node id within `u32` range and not yet
mapped), then `insert` surfaces `BuildError`, `node_to_vector` is exactly the
pre-call map (hence `size()` is unchanged and none of the batch's node ids is
mapped), and `next_vector_id` is rewound by the batch length back to its
pre-call value. -/
theorem insert_inner_failure_rollback :
    ∀ (s : AdapterState) (batch : List (Nat × List Rat)) (msg : String),
      s.node_to_vector ≠ [] →
      batch ≠ [] →
      s.next_vector_id < U32 →
      (∀ p ∈ batch, p.1 ≤ u32max ∧ mlookup s.node_to_vector p.1 = none) →
      (insertOp s batch (some msg)).2 = .err (.buildError msg) ∧
      (insertOp s batch (some msg)).1.node_to_vector = s.node_to_vector ∧
      (insertOp s batch (some msg)).1.size = s.size ∧
      (∀ p ∈ batch, mlookup (insertOp s batch (some msg)).1.node_to_vector p.1 = none) ∧
      (insertOp s batch (some msg)).1.next_vector_id = s.next_vector_id := by
  intro s batch msg hbuilt hbne hnext hvalid
  have hkeysub : ∀ p ∈ insertedMappings s.next_vector_id batch 0,
      (batch.map Prod.fst).contains p.1 = true := by
    intro p hp
    have hmem : p.1 ∈ batch.map Prod.fst := by
      have h := List.mem_map_of_mem Prod.fst hp
      rwa [insertedMappings_fst] at h
    exact List.elem_eq_true_of_mem hmem
  have hnone : ∀ k ∈ batch.map Prod.fst, mlookup s.node_to_vector k = none := by
    intro k hk
    obtain ⟨p, hp, rfl⟩ := List.mem_map.mp hk
    exact (hvalid p hp).2
  have hnm : (insertOp s batch (some msg)).1.node_to_vector = s.node_to_vector := by
    unfold insertOp
    rw [if_neg hbne, if_neg hbuilt, validateInsert_none _ _ hvalid]
    show (removeMappings
        (writeMappings s.node_to_vector s.vector_to_node
          (insertedMappings s.next_vector_id batch 0)).1
        (writeMappings s.node_to_vector s.vector_to_node
          (insertedMappings s.next_vector_id batch 0)).2
        (insertedMappings s.next_vector_id batch 0)).1 = s.node_to_vector
    rw [removeMappings_fst, insertedMappings_fst,
      writeMappings_fst_filter _ _ _ _ hkeysub,
      filter_not_keys_eq_self _ _ hnone]
  refine ⟨?_, hnm, ?_, ?_, ?_⟩
  · unfold insertOp
    rw [if_neg hbne, if_neg hbuilt, validateInsert_none _ _ hvalid]
  · show (insertOp s batch (some msg)).1.node_to_vector.length = s.node_to_vector.length
    rw [hnm]
  · intro p hp
    rw [hnm]
    exact (hvalid p hp).2
  · unfold insertOp
    rw [if_neg hbne, if_neg hbuilt, validateInsert_none _ _ hvalid]
    show ((s.next_vector_id + batch.length % U32) % U32 + (U32 - batch.length % U32)) % U32 =
      s.next_vector_id
    unfold U32 at hnext ⊢
    omega

/-- C3 witness: on the one-vector index, an inner failure while inserting
`{2, 3}` leaves `next_vector_id` at its pre-call value 1. -/
theorem insert_inner_failure_rollback_witness :
    (insertOp cexBuilt [(2, [2]), (3, [3])] (some "inner failed")).1.next_vector_id =
      cexBuilt.next_vector_id :=
  (insert_inner_failure_rollback cexBuilt [(2, [2]), (3, [3])] "inner failed"
    (by decide) (by decide) (by decide) (by decide)).2.2.2.2

/-! ## C10 — frame of a failed build -/

theorem buildLoop_error_shape :
    ∀ (rest : List (Nat × List Rat)) (idx : Nat) (seen : List Nat) (nm vm : NMap) (e : VErr),
      buildLoop rest idx seen nm vm = .error e →
      (∃ n, e = .vertexIdOverflow n) ∨ (∃ n, e = .duplicateNodeId n) := by
  intro rest
  induction rest with
  | nil => intro idx seen nm vm e h; exact absurd h (by simp [buildLoop])
  | cons q rest ih =>
    intro idx seen nm vm e h
    obtain ⟨nodeId, vec⟩ := q
    unfold buildLoop at h
    by_cases h1 : nodeId > u32max
    · rw [if_pos h1] at h
      exact Or.inl ⟨nodeId, (Except.error.injEq _ _).mp h |>.symm⟩
    · rw [if_neg h1] at h
      by_cases h2 : nodeId ∈ seen
      · rw [if_pos h2] at h
        exact Or.inr ⟨nodeId, (Except.error.injEq _ _).mp h |>.symm⟩
      · rw [if_neg h2] at h
        exact ih _ _ _ _ _ h

/-- C10: when `build` fails with `VertexIdOverflow`, `DuplicateNodeId`, or an
inner `BuildError`, both id maps end up empty (`size() = 0`,
`mapping_count() = 0`), `next_vector_id` is 0, and the statistics are reset
to their sentinel-initialized `IndexStats::new()` state; when it fails with
`EmptyDataset`, the whole state is left untouched.  (The stats lock is
assumed healthy: a poisoned lock panics inside `clear_mappings`.) -/
theorem build_failure_frame :
    ∀ (s : AdapterState) (batch : List (Nat × List Rat)) (ierr : Option String)
      (t : Nat) (s' : AdapterState) (e : VErr),
      s.poisoned = false →
      buildOp s batch ierr t = (s', .err e) →
      (e = .emptyDataset ∧ s' = s) ∨
      (((∃ n, e = .vertexIdOverflow n) ∨ (∃ n, e = .duplicateNodeId n) ∨
          (∃ m, e = .buildError m)) ∧
        s'.node_to_vector = [] ∧ s'.vector_to_node = [] ∧ s'.size = 0 ∧
        s'.next_vector_id = 0 ∧ s'.stats = IndexStats.new) := by
  intro s batch ierr t s' e hpois h
  unfold buildOp at h
  by_cases hb : batch = []
  · rw [if_pos hb] at h
    obtain ⟨h1, h2⟩ := Prod.mk.injEq .. ▸ h
    exact Or.inl ⟨((SRes.err.injEq _ _).mp h2).symm, h1.symm⟩
  · rw [if_neg hb, hpois] at h
    simp only [Bool.false_eq_true, if_false] at h
    rcases hloop : buildLoop (sortByKey batch) 0 [] [] [] with eL | pair
    · rw [hloop] at h
      obtain ⟨h1, h2⟩ := Prod.mk.injEq .. ▸ h
      have he : e = eL := ((SRes.err.injEq _ _).mp h2).symm
      refine Or.inr ⟨?_, ?_, ?_, ?_, ?_, ?_⟩
      · subst he
        rcases buildLoop_error_shape _ _ _ _ _ _ hloop with h' | h'
        · exact Or.inl h'
        · exact Or.inr (Or.inl h')
      all_goals rw [← h1]; rfl
    · rw [hloop] at h
      rcases ierr with _ | msg
      · simp at h
      · obtain ⟨h1, h2⟩ := Prod.mk.injEq .. ▸ h
        have he : e = .buildError msg := ((SRes.err.injEq _ _).mp h2).symm
        refine Or.inr ⟨Or.inr (Or.inr ⟨msg, he⟩), ?_, ?_, ?_, ?_, ?_⟩
        all_goals rw [← h1]; rfl

/-- C10 witness: building the duplicate batch `[(1, _), (1, _)]` over an
already-built adapter fails and leaves empty maps, a zero counter, and
freshly initialized statistics. -/
theorem build_failure_frame_witness :
    ((buildOp cexBuilt [(1, [1]), (1, [2])] none 0).1).stats = IndexStats.new ∧
    ((buildOp cexBuilt [(1, [1]), (1, [2])] none 0).1).size = 0 := by
  have h := build_failure_frame cexBuilt [(1, [1]), (1, [2])] none 0
    (buildOp cexBuilt [(1, [1]), (1, [2])] none 0).1 (.duplicateNodeId 1)
    (by decide) (by decide)
  rcases h with ⟨he, _⟩ | ⟨_, _, _, hsz, _, hst⟩
  · exact absurd he (by decide)
  · exact ⟨hst, hsz⟩

/-! ## C5 — strategy selection in search -/

/-- C5 counterexample: a search with `k = 0` on a built index, with a mask of
selectivity 0.05 (< 0.1) and a non-empty candidate set, dispatches to brute
force but returns with the statistics untouched — `brute_force_searches` is
**not** incremented, because `brute_force_search` returns before the stats
update when `k == 0`. -/
theorem search_k0_brute_force_no_stat_increment :
    searchA cexBuilt innerReject [] 0 16 (some mask005) = (.ok [], cexBuilt) ∧
    cexBuilt.stats.brute_force_searches = 0 := by
  refine ⟨?_, by decide⟩
  simp only [searchA]
  rw [if_neg (by decide : ¬ cexBuilt.vector_to_node = []),
    if_neg (by decide : ¬ mask005.candidateCount = 0),
    if_pos (by norm_num [mask005] : mask005.selectivity < 1 / 10)]
  rfl

/-- C5 (amended): with no mask, `search` delegates to `ann_search`; with a
mask on a built index, an empty candidate set returns empty; selectivity
below 0.1 dispatches to brute-force search and at or above 0.1 to post-filter
search; and a brute-force dispatch increments `stats.brute_force_searches` by
exactly 1 provided `k ≠ 0`, the scan succeeds, and the stats lock is not
poisoned. -/
theorem search_strategy_dispatch :
    (∀ st inner q k l, searchA st inner q k l none = annSearch st inner q k l) ∧
    (∀ st inner q k l mask, st.vector_to_node ≠ [] → mask.candidateCount = 0 →
      searchA st inner q k l (some mask) = (.ok [], st)) ∧
    (∀ st inner q k l mask, st.vector_to_node ≠ [] → mask.candidateCount ≠ 0 →
      mask.selectivity < 1 / 10 →
      searchA st inner q k l (some mask) = bruteForce st inner q k mask) ∧
    (∀ st inner q k l mask, st.vector_to_node ≠ [] → mask.candidateCount ≠ 0 →
      ¬ mask.selectivity < 1 / 10 →
      searchA st inner q k l (some mask) = postFilter st inner q k l mask) ∧
    (∀ st inner q k mask res st', st.poisoned = false → k ≠ 0 →
      bruteForce st inner q k mask = (.ok res, st') →
      st'.stats.brute_force_searches = st.stats.brute_force_searches + 1) := by
  refine ⟨fun _ _ _ _ _ => rfl, ?_, ?_, ?_, ?_⟩
  · intro st inner q k l mask hb hcc
    simp only [searchA]
    rw [if_neg hb, if_pos hcc]
  · intro st inner q k l mask hb hcc hsel
    simp only [searchA]
    rw [if_neg hb, if_neg hcc, if_pos hsel]
  · intro st inner q k l mask hb hcc hsel
    simp only [searchA]
    rw [if_neg hb, if_neg hcc, if_neg hsel]
  · intro st inner q k mask res st' hpois hk heq
    unfold bruteForce at heq
    rw [if_neg hk] at heq
    rcases hscan : bfScan inner q k mask.candidates [] 0 with hv | e | _ <;>
      rw [hscan] at heq
    · obtain ⟨h1, h2⟩ := Prod.mk.injEq .. ▸ heq
      rw [← h2, hpois]
      simp
    · simp at heq
    · simp at heq

set_option maxRecDepth 8000 in
/-- C5 witness: a brute-force search with `k = 1` over one candidate bumps
`brute_force_searches` from 0 to 1. -/
theorem search_strategy_dispatch_witness :
    ((bruteForce cexBuilt innerZero q104 1 mask005).2).stats.brute_force_searches =
      cexBuilt.stats.brute_force_searches + 1 :=
  search_strategy_dispatch.2.2.2.2 cexBuilt innerZero q104 1 mask005
    [1] ((bruteForce cexBuilt innerZero q104 1 mask005).2)
    (by decide) (by decide)
    (Prod.ext (by with_unfolding_all decide) rfl)

/-! ## C7 — poisoned stats lock -/

/-- C7 counterexample: `ann_search` on a built index with a poisoned stats
lock panics (the code uses `.expect(...)` when bumping `search_count`,
lines 399-404), contradicting the claim that no search path fails or panics
under a poisoned lock. -/
theorem annSearch_panics_on_poisoned_lock :
    (annSearch poisonedBuilt innerZero q104 1 16).1 = .panicked := by
  decide

/-- C7 (amended): brute-force search is unaffected by a poisoned stats lock —
its result equals the result with a healthy lock, the counter updates being
silently skipped — but `ann_search` (used by the unmasked and post-filter
paths) never completes a non-trivial search under a poisoned lock: it returns
the empty early-exit result, an error, or panics at the `search_count`
update (the code's `.expect(...)`). -/
theorem stats_lock_poisoning_behavior :
    (∀ st inner q k mask,
      (bruteForce st inner q k mask).1 =
        (bruteForce { st with poisoned := false } inner q k mask).1) ∧
    (∀ st inner q k l, st.poisoned = true →
      (annSearch st inner q k l).1 = .ok [] ∨
      (∃ e, (annSearch st inner q k l).1 = .err e) ∨
      (annSearch st inner q k l).1 = .panicked) := by
  constructor
  · intro st inner q k mask
    unfold bruteForce
    by_cases hk : k = 0
    · rw [if_pos hk, if_pos hk]
    · rw [if_neg hk, if_neg hk]
      rcases hscan : bfScan inner q k mask.candidates [] 0 with hv | e | _ <;> rfl
  · intro st inner q k l hpois
    simp only [annSearch]
    split
    · exact Or.inr (Or.inl ⟨.indexNotBuilt, rfl⟩)
    · split
      · exact Or.inl rfl
      · split
        · exact Or.inr (Or.inl ⟨_, rfl⟩)
        · split
          · exact Or.inr (Or.inl ⟨_, rfl⟩)
          · exact Or.inr (Or.inr rfl)
          · exact Or.inr (Or.inr rfl)

/-- C7 witness: a poisoned `ann_search` with `k = 0` lands in the
empty-result disjunct. -/
theorem stats_lock_poisoning_behavior_witness :
    (annSearch poisonedBuilt innerZero [] 0 16).1 = .ok [] ∨
    (∃ e, (annSearch poisonedBuilt innerZero [] 0 16).1 = .err e) ∨
    (annSearch poisonedBuilt innerZero [] 0 16).1 = .panicked :=
  stats_lock_poisoning_behavior.2 poisonedBuilt innerZero [] 0 16 (by decide)

/-! ## C9 — InvalidDimension on query/stored length mismatch -/

/-- C9 counterexample: a dimension-mismatched query (length 3 vs stored 104)
on the *unmasked* path does not fail with `InvalidDimension`: the adapter
delegates to the inner library and surfaces its rejection as `SearchError`
(`ann_search` maps every inner search error to `SearchError`, line 380). -/
theorem ann_path_dim_mismatch_yields_search_error :
    searchA cexBuilt innerReject [1, 2, 3] 5 16 none =
      (.err (.searchError "dimension mismatch"), cexBuilt) := by
  decide

/-- C9 (amended): on the brute-force path (mask present, selectivity < 0.1,
`k ≠ 0`), a query whose length differs from the first candidate's stored
vector fails with `InvalidDimension{expected: stored length, actual: query
length}` before any distance is produced; the unmasked and post-filter paths
instead delegate the mismatch to the inner library (surfaced as
`SearchError`). -/
theorem invalid_dimension_on_brute_force_path :
    ∀ (st : AdapterState) (inner : InnerSearchModel) (q : List Rat) (k l : Nat)
      (mask : MaskModel) (slot : Nat) (rest : List Nat) (v : List Rat),
      st.vector_to_node ≠ [] → mask.candidateCount ≠ 0 →
      mask.selectivity < 1 / 10 → k ≠ 0 →
      mask.candidates = slot :: rest →
      inner.getVec slot = some v →
      q.length ≠ v.length →
      searchA st inner q k l (some mask) =
        (.err (.invalidDimension v.length q.length), st) := by
  intro st inner q k l mask slot rest v hb hcc hsel hk hc hg hlen
  simp only [searchA]
  rw [if_neg hb, if_neg hcc, if_pos hsel]
  unfold bruteForce
  rw [if_neg hk, hc]
  have hdist : distOf inner q slot = .err (.invalidDimension v.length q.length) := by
    unfold distOf
    rw [hg]
    show computeL2 q v = _
    unfold computeL2
    rw [if_pos hlen]
  have hscan : bfScan inner q k (slot :: rest) [] 0 =
      .err (.invalidDimension v.length q.length) := by
    unfold bfScan
    rw [hdist]
  rw [hscan]

/-- C9 witness: a length-3 query against 104-dimensional stored vectors on
the brute-force path fails with `InvalidDimension{expected: 104, actual: 3}`. -/
theorem invalid_dimension_on_brute_force_path_witness :
    searchA cexBuilt innerZero [1, 2, 3] 1 16 (some mask005) =
      (.err (.invalidDimension 104 3), cexBuilt) := by
  have h := invalid_dimension_on_brute_force_path cexBuilt innerZero [1, 2, 3]
    1 16 mask005 0 [] (List.replicate 104 0)
    (by decide) (by decide) (by norm_num [mask005]) (by decide) rfl rfl
    (by decide)
  simpa using h

/-! ## Heap-order lemmas (for the brute-force contract) -/

theorem pairLtB_iff (a b : Rat × Nat) :
    pairLtB a b = true ↔ (a.1 < b.1 ∨ (a.1 = b.1 ∧ a.2 < b.2)) := by
  simp [pairLtB]

theorem pGe_iff (a b : Rat × Nat) :
    pGe a b ↔ (b.1 < a.1 ∨ (a.1 = b.1 ∧ b.2 ≤ a.2)) := by
  unfold pGe
  rw [← Bool.not_eq_true, pairLtB_iff]
  constructor
  · intro h
    push_neg at h
    obtain ⟨h1, h2⟩ := h
    rcases eq_or_lt_of_le h1 with heq | hlt
    · exact Or.inr ⟨heq.symm, h2 heq.symm⟩
    · exact Or.inl hlt
  · rintro (hlt | ⟨heq, hle⟩)
    · push_neg
      exact ⟨hlt.le, fun he => absurd hlt (not_lt.mpr he.le)⟩
    · push_neg
      exact ⟨heq.ge, fun _ => hle⟩

theorem pairLtB_asymm (a b : Rat × Nat) (h : pairLtB a b = true) : pGe b a := by
  rw [pairLtB_iff] at h
  rw [pGe_iff]
  rcases h with h1 | ⟨heq, h2⟩
  · exact Or.inl h1
  · exact Or.inr ⟨heq.symm, h2.le⟩

theorem pGe_of_lt_of_ge (x y z : Rat × Nat)
    (h1 : pairLtB y x = true) (h2 : pGe y z) : pGe x z := by
  rw [pairLtB_iff] at h1
  rw [pGe_iff] at h2 ⊢
  rcases h1 with ha | ⟨ha, ha2⟩ <;> rcases h2 with hb | ⟨hb, hb2⟩
  · exact Or.inl (hb.trans ha)
  · exact Or.inl (hb ▸ ha)
  · exact Or.inl (ha ▸ hb)
  · exact Or.inr ⟨ha ▸ hb, by omega⟩

theorem pGe_fst (a b : Rat × Nat) (h : pGe a b) : b.1 ≤ a.1 := by
  rw [pGe_iff] at h
  rcases h with h | ⟨h, _⟩
  · exact h.le
  · exact h.ge

theorem pGe_of_not_lt (y x : Rat × Nat) (h : ¬ pairLtB y x = true) : pGe y x :=
  Bool.eq_false_iff.mpr h

theorem heapPush_length (x : Rat × Nat) :
    ∀ h : List (Rat × Nat), (heapPush x h).length = h.length + 1 := by
  intro h
  induction h with
  | nil => rfl
  | cons y ys ih =>
    unfold heapPush
    by_cases hc : pairLtB y x = true
    · rw [if_pos hc]
      rfl
    · rw [if_neg hc]
      simp [ih]

theorem heapPush_mem (x' x : Rat × Nat) :
    ∀ h : List (Rat × Nat), x' ∈ heapPush x h → x' = x ∨ x' ∈ h := by
  intro h
  induction h with
  | nil => intro hm; simpa [heapPush] using hm
  | cons y ys ih =>
    intro hm
    unfold heapPush at hm
    by_cases hc : pairLtB y x = true
    · rw [if_pos hc] at hm
      rcases List.mem_cons.mp hm with rfl | hm'
      · exact Or.inl rfl
      · exact Or.inr hm'
    · rw [if_neg hc] at hm
      rcases List.mem_cons.mp hm with rfl | hm'
      · exact Or.inr (List.mem_cons_self _ _)
      · rcases ih hm' with h' | h'
        · exact Or.inl h'
        · exact Or.inr (List.mem_cons_of_mem _ h')

theorem heapPush_sorted (x : Rat × Nat) :
    ∀ h : List (Rat × Nat), h.Pairwise pGe → (heapPush x h).Pairwise pGe := by
  intro h
  induction h with
  | nil => intro _; simp [heapPush]
  | cons y ys ih =>
    intro hs
    rcases List.pairwise_cons.mp hs with ⟨hy, hys⟩
    unfold heapPush
    by_cases hc : pairLtB y x = true
    · rw [if_pos hc]
      refine List.pairwise_cons.mpr ⟨?_, hs⟩
      intro z hz
      rcases List.mem_cons.mp hz with rfl | hz'
      · exact pairLtB_asymm _ _ hc
      · exact pGe_of_lt_of_ge _ _ _ hc (hy _ hz')
    · rw [if_neg hc]
      refine List.pairwise_cons.mpr ⟨?_, ih hys⟩
      intro z hz
      rcases heapPush_mem _ _ _ hz with rfl | hz'
      · exact pGe_of_not_lt _ _ hc
      · exact hy _ hz'

theorem heapStep_sorted (k : Nat) (x : Rat × Nat) (h : List (Rat × Nat))
    (hs : h.Pairwise pGe) : (heapStep k x h).Pairwise pGe := by
  unfold heapStep
  by_cases hlt : h.length < k
  · rw [if_pos hlt]
    exact heapPush_sorted _ _ hs
  · rw [if_neg hlt]
    match h, hs with
    | [], _ => exact List.Pairwise.nil
    | m :: rest, hs =>
      rcases List.pairwise_cons.mp hs with ⟨_, hrest⟩
      show List.Pairwise pGe (if x.1 < m.1 then heapPush x rest else m :: rest)
      by_cases hx : x.1 < m.1
      · rw [if_pos hx]
        exact heapPush_sorted _ _ hrest
      · rw [if_neg hx]
        exact hs

theorem heapStep_mem (k : Nat) (x x' : Rat × Nat) (h : List (Rat × Nat))
    (hm : x' ∈ heapStep k x h) : x' = x ∨ x' ∈ h := by
  unfold heapStep at hm
  by_cases hlt : h.length < k
  · rw [if_pos hlt] at hm
    exact heapPush_mem _ _ _ hm
  · rw [if_neg hlt] at hm
    match h, hm with
    | [], hm => simp at hm
    | m :: rest, hm =>
      replace hm : x' ∈ (if x.1 < m.1 then heapPush x rest else m :: rest) := hm
      by_cases hx : x.1 < m.1
      · rw [if_pos hx] at hm
        rcases heapPush_mem _ _ _ hm with h' | h'
        · exact Or.inl h'
        · exact Or.inr (List.mem_cons_of_mem _ h')
      · rw [if_neg hx] at hm
        exact Or.inr hm

theorem heapStep_length (k : Nat) (x : Rat × Nat) (h : List (Rat × Nat))
    (hl : h.length ≤ k) : (heapStep k x h).length ≤ k := by
  unfold heapStep
  by_cases hlt : h.length < k
  · rw [if_pos hlt, heapPush_length]
    omega
  · rw [if_neg hlt]
    match h, hl, hlt with
    | [], _, _ => simp
    | m :: rest, hl, hlt =>
      show (if x.1 < m.1 then heapPush x rest else m :: rest).length ≤ k
      by_cases hx : x.1 < m.1
      · rw [if_pos hx, heapPush_length]
        simpa using hl
      · rw [if_neg hx]
        exact hl

theorem bfScan_ok_inv (inner : InnerSearchModel) (q : List Rat) (k : Nat)
    (P : Rat × Nat → Prop) :
    ∀ (cands : List Nat) (h : List (Rat × Nat)) (c : Nat)
      (hp : List (Rat × Nat)) (c' : Nat),
      bfScan inner q k cands h c = .ok (hp, c') →
      h.Pairwise pGe → h.length ≤ k → (∀ p ∈ h, P p) →
      (∀ slot ∈ cands, ∀ d, distOf inner q slot = .ok d → P (d, slot)) →
      hp.Pairwise pGe ∧ hp.length ≤ k ∧ (∀ p ∈ hp, P p) := by
  intro cands
  induction cands with
  | nil =>
    intro h c hp c' heq hs hl hP _
    simp only [bfScan, SRes.ok.injEq, Prod.mk.injEq] at heq
    rw [← heq.1]
    exact ⟨hs, hl, hP⟩
  | cons slot rest ih =>
    intro h c hp c' heq hs hl hP hc
    unfold bfScan at heq
    rcases hd : distOf inner q slot with d | e | _ <;> rw [hd] at heq
    · refine ih _ _ _ _ heq (heapStep_sorted _ _ _ hs) (heapStep_length _ _ _ hl)
        ?_ (fun s hsm d' hd' => hc s (List.mem_cons_of_mem _ hsm) d' hd')
      intro p hpm
      rcases heapStep_mem _ _ _ _ hpm with rfl | hpm'
      · exact hc slot (List.mem_cons_self _ _) d hd
      · exact hP p hpm'
    · simp at heq
    · simp at heq

/-! ## C6 — brute-force search contract -/

/-- C6: whenever brute-force search returns `Ok res`, `res` holds at most `k`
vertex ids; there is a list of (squared-L2-distance, slot) pairs, sorted by
non-decreasing distance to the query, whose slots all come from
`mask.iter_candidates()` and whose distances are the ones computed for those
slots, such that `res` is exactly that list with each slot resolved through
`vector_to_node` — slots absent from the map being dropped; and `k = 0`
returns an empty result immediately with the state untouched (the inner
index is never consulted). -/
theorem brute_force_contract :
    (∀ (st : AdapterState) (inner : InnerSearchModel) (q : List Rat) (k : Nat)
        (mask : MaskModel) (res : List Nat) (st' : AdapterState),
      bruteForce st inner q k mask = (.ok res, st') →
      res.length ≤ k ∧
      ∃ ps : List (Rat × Nat),
        List.Pairwise (fun a b => a.1 ≤ b.1) ps ∧
        (∀ p ∈ ps, p.2 ∈ mask.candidates ∧ distOf inner q p.2 = .ok p.1) ∧
        res = ps.filterMap (fun p => mlookup st.vector_to_node p.2)) ∧
    (∀ st inner q mask, bruteForce st inner q 0 mask = (.ok [], st)) := by
  constructor
  · intro st inner q k mask res st' heq
    by_cases hk : k = 0
    · subst hk
      unfold bruteForce at heq
      rw [if_pos rfl] at heq
      obtain ⟨h1, h2⟩ := Prod.mk.injEq .. ▸ heq
      have hres : res = [] := by simpa using h1.symm
      subst hres
      exact ⟨by simp, [], by simp, by simp, by simp⟩
    · unfold bruteForce at heq
      rw [if_neg hk] at heq
      rcases hscan : bfScan inner q k mask.candidates [] 0 with hv | e | _ <;>
        rw [hscan] at heq
      · obtain ⟨heap, valid⟩ := hv
        obtain ⟨h1, h2⟩ := Prod.mk.injEq .. ▸ heq
        have hres : res = heap.reverse.filterMap
            (fun p => mlookup st.vector_to_node p.2) := by
          simpa using h1.symm
        obtain ⟨hsort, hlen, hmem⟩ := bfScan_ok_inv inner q k
          (fun p => p.2 ∈ mask.candidates ∧ distOf inner q p.2 = .ok p.1)
          mask.candidates [] 0 heap valid hscan (by simp) (by simp) (by simp)
          (fun slot hs d hd => ⟨hs, hd⟩)
        refine ⟨?_, heap.reverse, ?_, ?_, hres⟩
        · rw [hres]
          calc (heap.reverse.filterMap
                (fun p => mlookup st.vector_to_node p.2)).length
              ≤ heap.reverse.length := List.length_filterMap_le _ _
            _ = heap.length := List.length_reverse _
            _ ≤ k := hlen
        · rw [List.pairwise_reverse]
          exact hsort.imp (fun {a b} h => pGe_fst a b h)
        · intro p hpm
          exact hmem p (List.mem_reverse.mp hpm)
      · exact absurd (congrArg Prod.fst heq) (by simp)
      · exact absurd (congrArg Prod.fst heq) (by simp)
  · intro st inner q mask
    rfl

set_option maxRecDepth 8000 in
/-- C6 witness: the one-candidate brute-force search over slot 0 returns its
node id `[1]`, with the contract's sorted distance-pair decomposition. -/
theorem brute_force_contract_witness :
    ([1] : List Nat).length ≤ 1 ∧
    ∃ ps : List (Rat × Nat),
      List.Pairwise (fun a b => a.1 ≤ b.1) ps ∧
      (∀ p ∈ ps, p.2 ∈ mask005.candidates ∧ distOf innerZero q104 p.2 = .ok p.1) ∧
      ([1] : List Nat) = ps.filterMap (fun p => mlookup cexBuilt.vector_to_node p.2) :=
  brute_force_contract.1 cexBuilt innerZero q104 1 mask005 [1]
    ((bruteForce cexBuilt innerZero q104 1 mask005).2)
    (Prod.ext (by with_unfolding_all decide) rfl)

/-! ## IdMap bijection lemmas (for C1) -/

theorem pairBij_nil : pairBij [] [] := by
  intro n v
  simp [mlookup_nil]

theorem pairBij_insert (nm vm : NMap) (n v : Nat) (hb : pairBij nm vm)
    (hn : mlookup nm n = none) (hv : mlookup vm v = none) :
    pairBij (minsert nm n v) (minsert vm v n) := by
  intro a b
  rw [mlookup_minsert, mlookup_minsert]
  by_cases ha : a = n <;> by_cases hbv : b = v
  · rw [if_pos ha, if_pos hbv]
    subst ha
    subst hbv
    simp
  · rw [if_pos ha, if_neg hbv]
    subst ha
    constructor
    · intro h
      exact absurd ((Option.some.injEq _ _).mp h).symm hbv
    · intro h
      have h2 := (hb a b).mpr h
      rw [hn] at h2
      exact Option.noConfusion h2
  · rw [if_neg ha, if_pos hbv]
    subst hbv
    constructor
    · intro h
      have h2 := (hb a b).mp h
      rw [hv] at h2
      exact Option.noConfusion h2
    · intro h
      exact absurd ((Option.some.injEq _ _).mp h).symm ha
  · rw [if_neg ha, if_neg hbv]
    exact hb a b

theorem pairBij_remove (nm vm : NMap) (n v : Nat) (hb : pairBij nm vm)
    (hnv : mlookup nm n = some v) :
    pairBij (mremove nm n) (mremove vm v) := by
  intro a b
  rw [mlookup_mremove, mlookup_mremove]
  by_cases ha : a = n <;> by_cases hbv : b = v
  · rw [if_pos ha, if_pos hbv]
    simp
  · rw [if_pos ha, if_neg hbv]
    subst ha
    constructor
    · intro h
      exact Option.noConfusion h
    · intro h
      have h2 := (hb a b).mpr h
      rw [hnv] at h2
      exact absurd ((Option.some.injEq _ _).mp h2) (by omega)
  · rw [if_neg ha, if_pos hbv]
    subst hbv
    constructor
    · intro h
      have h2 := (hb a b).mp h
      have h3 := (hb n b).mp hnv
      rw [h3] at h2
      exact absurd ((Option.some.injEq _ _).mp h2) (by omega)
    · intro h
      exact Option.noConfusion h
  · rw [if_neg ha, if_neg hbv]
    exact hb a b

theorem buildLoop_ok_inv :
    ∀ (rest : List (Nat × List Rat)) (idx : Nat) (seen : List Nat)
      (nm vm nm2 vm2 : NMap),
      buildLoop rest idx seen nm vm = .ok (nm2, vm2) →
      pairBij nm vm →
      (∀ n, n ∈ seen ↔ (mlookup nm n).isSome) →
      (∀ v n, mlookup vm v = some n → v < idx) →
      idx + rest.length ≤ U32 →
      pairBij nm2 vm2 ∧ (∀ v n, mlookup vm2 v = some n → v < idx + rest.length) := by
  intro rest
  induction rest with
  | nil =>
    intro idx seen nm vm nm2 vm2 heq hb _ hbound _
    simp only [buildLoop, Except.ok.injEq, Prod.mk.injEq] at heq
    rw [← heq.1, ← heq.2]
    exact ⟨hb, fun v n h => by have := hbound v n h; omega⟩
  | cons q rest ih =>
    intro idx seen nm vm nm2 vm2 heq hb hseen hbound hlen
    obtain ⟨nodeId, vec⟩ := q
    unfold buildLoop at heq
    by_cases h1 : nodeId > u32max
    · rw [if_pos h1] at heq
      exact absurd heq (by simp)
    · rw [if_neg h1] at heq
      by_cases h2 : nodeId ∈ seen
      · rw [if_pos h2] at heq
        exact absurd heq (by simp)
      · rw [if_neg h2] at heq
        have hidx : idx < U32 := by
          simp only [List.length_cons] at hlen
          omega
        rw [Nat.mod_eq_of_lt hidx] at heq
        have hnmNone : mlookup nm nodeId = none := by
          rcases hcase : mlookup nm nodeId with _ | w
          · rfl
          · exact absurd ((hseen nodeId).mpr (by simp [hcase])) h2
        have hvmNone : mlookup vm idx = none := by
          rcases hcase : mlookup vm idx with _ | w
          · rfl
          · exact absurd (hbound idx w hcase) (lt_irrefl idx)
        have hres := ih (idx + 1) (nodeId :: seen)
          (minsert nm nodeId idx) (minsert vm idx nodeId) nm2 vm2 heq
          (pairBij_insert _ _ _ _ hb hnmNone hvmNone)
          (by
            intro n
            rw [mlookup_minsert]
            by_cases hn : n = nodeId
            · simp [hn]
            · simp only [List.mem_cons, hn, if_neg hn, false_or]
              exact hseen n)
          (by
            intro v n h
            rw [mlookup_minsert] at h
            by_cases hv : v = idx
            · omega
            · rw [if_neg hv] at h
              have := hbound v n h
              omega)
          (by
            simp only [List.length_cons] at hlen ⊢
            omega)
        refine ⟨hres.1, fun v n h => ?_⟩
        have := hres.2 v n h
        simp only [List.length_cons]
        omega

theorem validateInsert_none_lookup (nm : NMap) :
    ∀ batch : List (Nat × List Rat),
      validateInsert nm batch = none →
      ∀ p ∈ batch, p.1 ≤ u32max ∧ mlookup nm p.1 = none := by
  intro batch
  induction batch with
  | nil => intro _ p hp; simp at hp
  | cons q rest ih =>
    intro h p hp
    obtain ⟨nid, vec⟩ := q
    unfold validateInsert at h
    by_cases h1 : nid > u32max
    · rw [if_pos h1] at h
      exact Option.noConfusion h
    · rw [if_neg h1] at h
      by_cases h2 : (mlookup nm nid).isSome
      · rw [if_pos h2] at h
        exact Option.noConfusion h
      · rw [if_neg h2] at h
        rcases List.mem_cons.mp hp with rfl | hp'
        · exact ⟨by omega, Option.not_isSome_iff_eq_none.mp h2⟩
        · exact ih h p hp'

theorem writeMappings_inv :
    ∀ (ps : List (Nat × Nat)) (nm vm : NMap),
      pairBij nm vm →
      (ps.map Prod.fst).Nodup →
      (ps.map Prod.snd).Nodup →
      (∀ p ∈ ps, mlookup nm p.1 = none ∧ mlookup vm p.2 = none) →
      pairBij (writeMappings nm vm ps).1 (writeMappings nm vm ps).2 ∧
      (∀ v n, mlookup (writeMappings nm vm ps).2 v = some n →
        mlookup vm v = some n ∨ v ∈ ps.map Prod.snd) := by
  intro ps
  induction ps with
  | nil =>
    intro nm vm hb _ _ _
    exact ⟨hb, fun v n h => Or.inl h⟩
  | cons q ps ih =>
    intro nm vm hb hkeys hslots hnone
    obtain ⟨a, b⟩ := q
    obtain ⟨hna, hvb⟩ := hnone (a, b) (List.mem_cons_self _ _)
    have hkeys' := List.nodup_cons.mp hkeys
    have hslots' := List.nodup_cons.mp hslots
    have hres := ih (minsert nm a b) (minsert vm b a)
      (pairBij_insert _ _ _ _ hb hna hvb) hkeys'.2 hslots'.2
      (by
        intro p hp
        obtain ⟨hp1, hp2⟩ := hnone p (List.mem_cons_of_mem _ hp)
        constructor
        · rw [mlookup_minsert]
          have hne : p.1 ≠ a := by
            intro hcontra
            have hmem : p.1 ∈ ps.map Prod.fst := List.mem_map_of_mem Prod.fst hp
            rw [hcontra] at hmem
            exact hkeys'.1 hmem
          rw [if_neg hne]
          exact hp1
        · rw [mlookup_minsert]
          have hne : p.2 ≠ b := by
            intro hcontra
            have hmem : p.2 ∈ ps.map Prod.snd := List.mem_map_of_mem Prod.snd hp
            rw [hcontra] at hmem
            exact hslots'.1 hmem
          rw [if_neg hne]
          exact hp2)
    refine ⟨hres.1, fun v n h => ?_⟩
    rcases hres.2 v n h with h' | h'
    · rw [mlookup_minsert] at h'
      by_cases hv : v = b
      · exact Or.inr (by simp [hv])
      · rw [if_neg hv] at h'
        exact Or.inl h'
    · exact Or.inr (List.mem_cons_of_mem _ h')

theorem insertedMappings_snd (base : Nat) :
    ∀ (batch : List (Nat × List Rat)) (i : Nat),
      base + i + batch.length ≤ U32 →
      (insertedMappings base batch i).map Prod.snd =
        List.range' (base + i) batch.length := by
  intro batch
  induction batch with
  | nil => intro i _; rfl
  | cons q rest ih =>
    intro i hbound
    obtain ⟨nid, vec⟩ := q
    simp only [List.length_cons] at hbound
    have hi : i < U32 := by
      have : 0 < U32 := by norm_num [U32]
      omega
    have hbi : base + i < U32 := by omega
    show ((base + i % U32) % U32) :: (insertedMappings base rest (i + 1)).map Prod.snd = _
    rw [Nat.mod_eq_of_lt hi, Nat.mod_eq_of_lt hbi, ih (i + 1) (by omega)]
    show _ = (base + i) :: List.range' (base + i + 1) rest.length
    rw [show base + (i + 1) = base + i + 1 by omega]

theorem sortInsert_length (a : Nat × List Rat) :
    ∀ l, (sortInsert a l).length = l.length + 1 := by
  intro l
  induction l with
  | nil => rfl
  | cons b bs ih =>
    unfold sortInsert
    by_cases h : a.1 < b.1
    · rw [if_pos h]
      rfl
    · rw [if_neg h]
      simp [ih]

theorem sortByKey_length :
    ∀ l : List (Nat × List Rat), (sortByKey l).length = l.length := by
  intro l
  induction l with
  | nil => rfl
  | cons a l ih =>
    show (sortInsert a (sortByKey l)).length = l.length + 1
    rw [sortInsert_length, ih]

theorem removeDeleted_inv :
    ∀ (ids : List Nat) (nm vm : NMap),
      pairBij nm vm →
      pairBij (removeDeleted nm vm ids).1 (removeDeleted nm vm ids).2 ∧
      (∀ v n, mlookup (removeDeleted nm vm ids).2 v = some n →
        mlookup vm v = some n) := by
  intro ids
  induction ids with
  | nil => intro nm vm hb; exact ⟨hb, fun _ _ h => h⟩
  | cons nodeId rest ih =>
    intro nm vm hb
    show pairBij (removeDeleted nm vm (nodeId :: rest)).1
        (removeDeleted nm vm (nodeId :: rest)).2 ∧ _
    unfold removeDeleted
    rcases hl : mlookup nm nodeId with _ | v
    · exact ih nm vm hb
    · have hres := ih (mremove nm nodeId) (mremove vm v)
        (pairBij_remove _ _ _ _ hb hl)
      refine ⟨hres.1, fun v' n h => ?_⟩
      have h2 := hres.2 v' n h
      rw [mlookup_mremove] at h2
      by_cases hv : v' = v
      · rw [if_pos hv] at h2
        exact Option.noConfusion h2
      · rw [if_neg hv] at h2
        exact h2

theorem buildOp_preserves :
    ∀ (s : AdapterState) (batch : List (Nat × List Rat)) (ierr : Option String)
      (t : Nat) (s' : AdapterState),
      batch.length < U32 →
      buildOp s batch ierr t = (s', .ok ()) →
      pairBij s'.node_to_vector s'.vector_to_node ∧ SlotsBelowNext s' := by
  intro s batch ierr t s' hlen heq
  simp only [buildOp] at heq
  by_cases hb : batch = []
  · rw [if_pos hb] at heq
    exact absurd (congrArg Prod.snd heq) (by simp)
  · rw [if_neg hb] at heq
    by_cases hpois : s.poisoned = true
    · rw [if_pos hpois] at heq
      exact absurd (congrArg Prod.snd heq) (by simp)
    · rw [if_neg hpois] at heq
      rcases hloop : buildLoop (sortByKey batch) 0 [] [] [] with e | pair
      · rw [hloop] at heq
        exact absurd (congrArg Prod.snd heq) (by simp)
      · rw [hloop] at heq
        obtain ⟨nm, vm⟩ := pair
        rcases ierr with _ | msg
        · obtain ⟨h1, _⟩ := Prod.mk.injEq .. ▸ heq
          have hinv := buildLoop_ok_inv (sortByKey batch) 0 [] [] [] nm vm hloop
            pairBij_nil
            (by intro n; rw [mlookup_nil]; simp)
            (by intro v n h; rw [mlookup_nil] at h; exact Option.noConfusion h)
            (by rw [sortByKey_length]; omega)
          rw [← h1]
          refine ⟨hinv.1, ?_⟩
          intro v n h
          have hv := hinv.2 v n h
          show v < (sortByKey batch).length % U32
          rw [sortByKey_length] at hv ⊢
          rw [Nat.mod_eq_of_lt (by omega)]
          omega
        · exact absurd (congrArg Prod.snd heq) (by simp)

theorem insertOp_preserves :
    ∀ (s : AdapterState) (batch : List (Nat × List Rat)) (ierr : Option String)
      (s' : AdapterState),
      pairBij s.node_to_vector s.vector_to_node →
      SlotsBelowNext s →
      (batch.map Prod.fst).Nodup →
      s.next_vector_id + batch.length < U32 →
      insertOp s batch ierr = (s', .ok ()) →
      pairBij s'.node_to_vector s'.vector_to_node ∧ SlotsBelowNext s' := by
  intro s batch ierr s' hbij hslots hnodup hbound heq
  simp only [insertOp] at heq
  by_cases hb : batch = []
  · rw [if_pos hb] at heq
    obtain ⟨h1, _⟩ := Prod.mk.injEq .. ▸ heq
    rw [← h1]
    exact ⟨hbij, hslots⟩
  · rw [if_neg hb] at heq
    by_cases hbuilt : s.node_to_vector = []
    · rw [if_pos hbuilt] at heq
      exact absurd (congrArg Prod.snd heq) (by simp)
    · rw [if_neg hbuilt] at heq
      rcases hval : validateInsert s.node_to_vector batch with _ | e
      · rw [hval] at heq
        rcases ierr with _ | msg
        · obtain ⟨h1, _⟩ := Prod.mk.injEq .. ▸ heq
          have hkeys : (insertedMappings s.next_vector_id batch 0).map Prod.fst =
              batch.map Prod.fst := insertedMappings_fst _ _ _
          have hsnd : (insertedMappings s.next_vector_id batch 0).map Prod.snd =
              List.range' (s.next_vector_id + 0) batch.length :=
            insertedMappings_snd _ _ 0 (by omega)
          have hinv := writeMappings_inv (insertedMappings s.next_vector_id batch 0)
            s.node_to_vector s.vector_to_node hbij
            (by rw [hkeys]; exact hnodup)
            (by rw [hsnd]; exact List.nodup_range' ..)
            (by
              intro p hp
              constructor
              · have hpk : p.1 ∈ batch.map Prod.fst := by
                  rw [← hkeys]
                  exact List.mem_map_of_mem Prod.fst hp
                obtain ⟨q, hq, hq1⟩ := List.mem_map.mp hpk
                have hql := (validateInsert_none_lookup _ _ hval q hq).2
                rw [← hq1]
                exact hql
              · have hpv : p.2 ∈ List.range' (s.next_vector_id + 0) batch.length := by
                  rw [← hsnd]
                  exact List.mem_map_of_mem Prod.snd hp
                rw [List.mem_range'_1] at hpv
                rcases hcase : mlookup s.vector_to_node p.2 with _ | n
                · rfl
                · exact absurd (hslots _ _ hcase) (by omega))
          rw [← h1]
          refine ⟨hinv.1, ?_⟩
          intro v n h
          have hlt : batch.length % U32 = batch.length := Nat.mod_eq_of_lt (by omega)
          show v < (s.next_vector_id + batch.length % U32) % U32
          rw [hlt, Nat.mod_eq_of_lt (by omega)]
          rcases hinv.2 v n h with h' | h'
          · have := hslots _ _ h'
            omega
          · rw [hsnd, List.mem_range'_1] at h'
            omega
        · exact absurd (congrArg Prod.snd heq) (by simp)
      · rw [hval] at heq
        exact absurd (congrArg Prod.snd heq) (by simp)

theorem softDeleteOp_preserves :
    ∀ (s : AdapterState) (ids : List Nat) (ierr : Option String) (s' : AdapterState),
      pairBij s.node_to_vector s.vector_to_node →
      SlotsBelowNext s →
      softDeleteOp s ids ierr = (s', .ok ()) →
      pairBij s'.node_to_vector s'.vector_to_node ∧ SlotsBelowNext s' := by
  intro s ids ierr s' hbij hslots heq
  simp only [softDeleteOp] at heq
  by_cases hid : ids = []
  · rw [if_pos hid] at heq
    obtain ⟨h1, _⟩ := Prod.mk.injEq .. ▸ heq
    rw [← h1]
    exact ⟨hbij, hslots⟩
  · rw [if_neg hid] at heq
    by_cases hbuilt : s.node_to_vector = []
    · rw [if_pos hbuilt] at heq
      exact absurd (congrArg Prod.snd heq) (by simp)
    · rw [if_neg hbuilt] at heq
      rcases hcol : collectDeleteSlots s.node_to_vector s.vector_to_node ids with e | vs
      · rw [hcol] at heq
        exact absurd (congrArg Prod.snd heq) (by simp)
      · rw [hcol] at heq
        rcases ierr with _ | msg
        · obtain ⟨h1, _⟩ := Prod.mk.injEq .. ▸ heq
          have hinv := removeDeleted_inv ids s.node_to_vector s.vector_to_node hbij
          rw [← h1]
          refine ⟨hinv.1, ?_⟩
          intro v n h
          exact hslots v n (hinv.2 v n h)
        · exact absurd (congrArg Prod.snd heq) (by simp)

/-- C1 (amended): starting from a fresh adapter, any sequence of *successful*
`build`, `insert`, and `soft_delete` operations in which every insert batch
is free of intra-batch duplicate node ids (and the 2^32 slot space is not
exhausted — the spec leaves slot exhaustion undefined) preserves the IdMap
bijection: `node_to_vector` maps `n` to `s` iff `vector_to_node` maps `s` to
`n`, both directions bijective over the live entries.  An insert whose batch
repeats a NodeId breaks this (see the counterexample), so the side condition
is necessary. -/
theorem idmap_bijective_over_good_sequences :
    ∀ s : AdapterState, GoodReach s → Bij s := by
  have main : ∀ s : AdapterState, GoodReach s →
      pairBij s.node_to_vector s.vector_to_node ∧ SlotsBelowNext s := by
    intro s h
    induction h with
    | init =>
      refine ⟨pairBij_nil, ?_⟩
      intro v n h
      exact Option.noConfusion h
    | step hreach hgood happ ih =>
      rename_i s1 s2 op
      cases op with
      | build batch ierr t => exact buildOp_preserves _ _ _ _ _ hgood happ
      | insert batch ierr =>
        exact insertOp_preserves _ _ _ _ ih.1 ih.2 hgood.1 hgood.2 happ
      | softDelete ids ierr =>
        exact softDeleteOp_preserves _ _ _ _ ih.1 ih.2 happ
  intro s h
  exact (main s h).1

/-- C1 counterexample: the successful sequence `build [(1, _)]` then
`insert [(2, _), (2, _)]` — an insert whose batch repeats NodeId 2 — breaks
the bijection: afterwards `vector_to_node` maps slot 1 to node 2 while
`node_to_vector` maps node 2 to slot 2, so the claim's "every operation,
including an insert whose input batch repeats a NodeId, preserves this
bijection" is false. -/
theorem idmap_bijection_broken_by_dup_insert :
    applyOp initState (.build [(1, [1])] none 0) = (cexBuilt, .ok ()) ∧
    (applyOp cexBuilt (.insert [(2, [2]), (2, [3])] none)).2 = .ok () ∧
    ¬ Bij (applyOp cexBuilt (.insert [(2, [2]), (2, [3])] none)).1 := by
  refine ⟨by decide, by decide, ?_⟩
  intro h
  have h1 := (h 2 1).mpr (by decide)
  exact absurd h1 (by decide)

/-- C1 witness: the state reached by the good one-step sequence
`build [(1, _)]` satisfies the bijection. -/
theorem idmap_bijective_over_good_sequences_witness : Bij cexBuilt :=
  idmap_bijective_over_good_sequences cexBuilt
    (@GoodReach.step initState cexBuilt (Op.build [(1, [1])] none 0)
      GoodReach.init
      (show ([(1, [1])] : List (Nat × List Rat)).length < U32 by decide)
      (by decide))

end MiniGU
